import Mathlib

/-!
Shallow embedding of the glm-color library: the linear RGB, HSV, sRGB and
YCbCr color spaces and the procedural color-generation helpers, together
with proofs about them.  `f32` arithmetic is idealised as exact real
arithmetic.  The external glm numerics collaborator (clamp, floor, the
Rust float remainder, degree/radian conversion, approximate equality) is
modelled explicitly below; everything else is translated directly from
the Rust sources (src/rgb.rs, src/hsv.rs, src/srgb.rs, src/ycbcr.rs).
-/

namespace GlmColor

open Real

/-- Modelled from the spec: the approximate-equality tolerance of the
external glm numerics collaborator, the `f32` machine epsilon 2⁻²³. -/
noncomputable def f32eps : ℝ := 1 / 8388608

/-- Modelled from the spec: glm `is_approx_eq`, approximate equality of
two floats within `f32eps`. -/
def is_approx_eq (a b : ℝ) : Prop := |a - b| ≤ f32eps

noncomputable instance (a b : ℝ) : Decidable (is_approx_eq a b) :=
  inferInstanceAs (Decidable (|a - b| ≤ f32eps))

/-- Modelled from the spec: glm `clamp(x, lo, hi) = min(max(x, lo), hi)`. -/
noncomputable def clamp (x lo hi : ℝ) : ℝ := min (max x lo) hi

/-- Modelled from the spec: glm `tau()`, the constant 2π. -/
noncomputable def tau : ℝ := 2 * π

/-- Modelled from the spec: glm `radians`, degrees-to-radians conversion. -/
noncomputable def radians (d : ℝ) : ℝ := d * π / 180

/-- Modelled from the spec: glm `degrees`, radians-to-degrees conversion. -/
noncomputable def degrees (x : ℝ) : ℝ := x * 180 / π

/-- Modelled from the spec: glm `floor` on floats, as a real-valued map. -/
noncomputable def floorR (x : ℝ) : ℝ := (⌊x⌋ : ℝ)

/-- Truncation toward zero, the rounding used by the Rust float remainder. -/
noncomputable def trunc (x : ℝ) : ℝ := if 0 ≤ x then (⌊x⌋ : ℝ) else (⌈x⌉ : ℝ)

/-- The Rust `%` operator on floats: remainder carrying the dividend's sign,
`a - b * trunc (a / b)`. -/
noncomputable def fmodRust (a b : ℝ) : ℝ := a - b * trunc (a / b)

/-- The linear RGB color space (struct `Rgb`, src/rgb.rs). -/
structure Rgb where
  r : ℝ
  g : ℝ
  b : ℝ

/-- `Rgb::new`: constructs an `Rgb`, clamping each channel into [0, 1]. -/
noncomputable def Rgb.new (red green blue : ℝ) : Rgb :=
  ⟨clamp red 0 1, clamp green 0 1, clamp blue 0 1⟩

/-- `Rgb::with_red`. -/
noncomputable def Rgb.with_red (c : Rgb) (x : ℝ) : Rgb :=
  ⟨clamp x 0 1, c.g, c.b⟩

/-- `Rgb::set_red`, as a function returning the updated receiver. -/
noncomputable def Rgb.set_red (c : Rgb) (x : ℝ) : Rgb :=
  { c with r := clamp x 0 1 }

/-- `Rgb::with_green`. -/
noncomputable def Rgb.with_green (c : Rgb) (x : ℝ) : Rgb :=
  ⟨c.r, clamp x 0 1, c.b⟩

/-- `Rgb::set_green`, as a function returning the updated receiver. -/
noncomputable def Rgb.set_green (c : Rgb) (x : ℝ) : Rgb :=
  { c with g := clamp x 0 1 }

/-- `Rgb::with_blue`. -/
noncomputable def Rgb.with_blue (c : Rgb) (x : ℝ) : Rgb :=
  ⟨c.r, c.g, clamp x 0 1⟩

/-- `Rgb::set_blue`, as a function returning the updated receiver. -/
noncomputable def Rgb.set_blue (c : Rgb) (x : ℝ) : Rgb :=
  { c with b := clamp x 0 1 }

/-- `Rgb::hue` (src/rgb.rs): 0 for approximately-achromatic colors, else
the six-sector hue formula, normalised into [0, 2π) radians. -/
noncomputable def Rgb.hue (c : Rgb) : ℝ :=
  let mx := max c.r (max c.g c.b)
  let mn := min c.r (min c.g c.b)
  if is_approx_eq mn mx then 0
  else
    let ch := mx - mn
    let deg :=
      if mx = c.r then fmodRust ((c.g - c.b) / ch) 6
      else if mx = c.g then (c.b - c.r) / ch + 2
      else (c.r - c.g) / ch + 4
    radians (fmodRust (deg * 60 + 360) 360)

/-- `Rgb::saturation` (src/rgb.rs): 0 for approximately-achromatic colors,
else `1 - min / max`. -/
noncomputable def Rgb.saturation (c : Rgb) : ℝ :=
  let mx := max c.r (max c.g c.b)
  let mn := min c.r (min c.g c.b)
  if is_approx_eq mx mn then 0
  else 1 - mn / mx

/-- `Rgb::brightness`: the maximum channel. -/
noncomputable def Rgb.brightness (c : Rgb) : ℝ :=
  max c.r (max c.g c.b)

/-- `Rgb::lunimance` (sic): dot product with the BT.709 luma coefficients. -/
noncomputable def Rgb.lunimance (c : Rgb) : ℝ :=
  c.r * 0.2126 + c.g * 0.7152 + c.b * 0.0722

/-- `impl Rand for Rgb` (src/rgb.rs): the three successive uniform draws
from the generator are `u0`, `u1`, `u2`, bound to `r`, `g`, `b` in order;
the constructed value is `Rgb { r: r, g: b, b: b }` exactly as in the
source. -/
def Rgb.randFrom (u0 u1 u2 : ℝ) : Rgb :=
  let r := u0
  let _g := u1
  let b := u2
  ⟨r, b, b⟩

/-- Modelled from the spec: the intended behavior of `Rgb::rand`, an
independent uniform draw per channel, red from the first draw, green from
the second, blue from the third. -/
def Rgb.randFromSpec (u0 u1 u2 : ℝ) : Rgb :=
  ⟨u0, u1, u2⟩

/-- `Rgb::rand_offset` (src/rgb.rs), with the thread-local random draw
made an explicit argument `rnd`. -/
noncomputable def Rgb.rand_offset (c : Rgb) (rnd offset : ℝ) : Rgb :=
  let val := (c.r + c.g + c.b) / 3
  let os := clamp offset 0 1
  if is_approx_eq val 0 then ⟨os, os, os⟩
  else
    let ratio := 1 + (2 * rnd * os - os) / val
    Rgb.new (c.r * ratio) (c.g * ratio) (c.b * ratio)

/-- The HSV color space (struct `Hsv`, src/hsv.rs). -/
structure Hsv where
  h : ℝ
  s : ℝ
  v : ℝ

/-- `Hsv::new` (src/hsv.rs): the hue is clamped into [0, 2π] and the exact
boundary value 2π is then replaced by 0; saturation and brightness are
clamped into [0, 1]. -/
noncomputable def Hsv.new (hue saturation brightness : ℝ) : Hsv :=
  let pi2 := tau
  let h0 := clamp hue 0 pi2
  let h := if h0 = pi2 then 0 else h0
  let s := clamp saturation 0 1
  let b := clamp brightness 0 1
  ⟨h, s, b⟩

/-- `Hsv::hue` accessor. -/
noncomputable def Hsv.hue (c : Hsv) : ℝ := c.h

/-- `Hsv::saturation` accessor. -/
noncomputable def Hsv.saturation (c : Hsv) : ℝ := c.s

/-- `Hsv::brightness` accessor. -/
noncomputable def Hsv.brightness (c : Hsv) : ℝ := c.v

/-- `Hsv::set_hue`, as a function returning the updated receiver: the same
clamp-then-fix-the-2π-boundary computation as `Hsv::new`. -/
noncomputable def Hsv.set_hue (c : Hsv) (x : ℝ) : Hsv :=
  let pi2 := tau
  let hv0 := clamp x 0 pi2
  let hv := if hv0 = pi2 then 0 else hv0
  { c with h := hv }

/-- `Hsv::with_hue`. -/
noncomputable def Hsv.with_hue (c : Hsv) (x : ℝ) : Hsv :=
  c.set_hue x

/-- `Hsv::set_saturation`, as a function returning the updated receiver. -/
noncomputable def Hsv.set_saturation (c : Hsv) (x : ℝ) : Hsv :=
  { c with s := clamp x 0 1 }

/-- `Hsv::with_saturation`. -/
noncomputable def Hsv.with_saturation (c : Hsv) (x : ℝ) : Hsv :=
  c.set_saturation x

/-- `Hsv::set_brightness`, as a function returning the updated receiver. -/
noncomputable def Hsv.set_brightness (c : Hsv) (x : ℝ) : Hsv :=
  { c with v := clamp x 0 1 }

/-- `Hsv::with_brightness`. -/
noncomputable def Hsv.with_brightness (c : Hsv) (x : ℝ) : Hsv :=
  c.set_brightness x

/-- `Hsv::from_hue`. -/
noncomputable def Hsv.from_hue (x : ℝ) : Hsv :=
  Hsv.set_hue ⟨0, 1, 1⟩ x

/-- `Hsv::tint`. -/
noncomputable def Hsv.tint (c : Hsv) (amt : ℝ) : Hsv :=
  let b := clamp amt 0 1
  c.with_brightness (c.brightness + b)

/-- `Hsv::tints` (src/hsv.rs): for `n ≠ 0`, maps each `i < n` to the
receiver with brightness `b + (1 - b) / n * i`. -/
noncomputable def Hsv.tints (c : Hsv) (n : ℕ) : List Hsv :=
  if n = 0 then []
  else
    let b := c.brightness
    let d := (1 - b) / (n : ℝ)
    (List.range n).map (fun (i : ℕ) => c.with_brightness (b + d * (i : ℝ)))

/-- `Hsv::shade`. -/
noncomputable def Hsv.shade (c : Hsv) (amt : ℝ) : Hsv :=
  let b := clamp amt 0 1
  c.with_brightness (c.brightness - b)

/-- `Hsv::shades`. -/
noncomputable def Hsv.shades (c : Hsv) (n : ℕ) : List Hsv :=
  if n = 0 then []
  else
    let b := c.brightness
    let d := c.brightness / (n : ℝ)
    (List.range n).map (fun (i : ℕ) => c.with_brightness (b - d * (i : ℝ)))

/-- `Hsv::tone`. -/
noncomputable def Hsv.tone (c : Hsv) (amt : ℝ) : Hsv :=
  let s := clamp amt 0 1
  c.with_saturation (c.saturation - s)

/-- `Hsv::tones` (src/hsv.rs): for `n ≠ 0`, maps each `i < n` to the
receiver with its brightness setter applied to `s + (1 - s) / n * i`,
where `s` is the receiver's saturation — exactly as in the source, which
calls `with_brightness`, not `with_saturation`. -/
noncomputable def Hsv.tones (c : Hsv) (n : ℕ) : List Hsv :=
  if n = 0 then []
  else
    let s := c.saturation
    let d := (1 - s) / (n : ℝ)
    (List.range n).map (fun (i : ℕ) => c.with_brightness (s + d * (i : ℝ)))

/-- `impl ColorSpace for Hsv`, `from_rgb`: direct channel mapping from the
Rgb hue/saturation/brightness accessors. -/
noncomputable def Hsv.from_rgb (rgb : Rgb) : Hsv :=
  ⟨rgb.hue, rgb.saturation, rgb.brightness⟩

/-- `impl ColorSpace for Hsv`, `to_rgb`: the six-sector HSV to RGB
conversion.  The `unreachable!` fallback arm of the sector match is
modelled as `none`; every reachable arm yields `some`. -/
noncomputable def Hsv.to_rgb? (c : Hsv) : Option Rgb :=
  if is_approx_eq c.s 0 then some (Rgb.new c.v c.v c.v)
  else
    let hv := degrees c.h / 60
    let hi := fmodRust (floorR hv) 6
    let f := hv - hi
    let p := c.v * (1 - c.s)
    let q := c.v * (1 - f * c.s)
    let t := c.v * (1 - (1 - f) * c.s)
    if hi = 0 then some (Rgb.new c.v t p)
    else if hi = 1 then some (Rgb.new q c.v p)
    else if hi = 2 then some (Rgb.new p c.v t)
    else if hi = 3 then some (Rgb.new p q c.v)
    else if hi = 4 then some (Rgb.new t p c.v)
    else if hi = 5 then some (Rgb.new c.v p q)
    else none

/-- The sector index computed inside `Hsv::to_rgb`
(`floor(degrees(h) / 60) % 6`), named so the unreachable-arm claim can be
stated about it. -/
noncomputable def Hsv.sector (c : Hsv) : ℝ :=
  fmodRust (floorR (degrees c.h / 60)) 6

/-- The sRGB color space (struct `Srgb`, src/srgb.rs). -/
structure Srgb where
  r : ℝ
  g : ℝ
  b : ℝ

/-- `Srgb::new`: clamps each channel into [0, 1]. -/
noncomputable def Srgb.new (red green blue : ℝ) : Srgb :=
  ⟨clamp red 0 1, clamp green 0 1, clamp blue 0 1⟩

/-- The YCbCr color space (struct `YCbCr`, src/ycbcr.rs). -/
structure YCbCr where
  y : ℝ
  cb : ℝ
  cr : ℝ

/-- `YCbCr::new`: clamps `y` into [0, 1] and `cb`, `cr` into [-0.5, 0.5]. -/
noncomputable def YCbCr.new (y cb cr : ℝ) : YCbCr :=
  ⟨clamp y 0 1, clamp cb (-0.5) 0.5, clamp cr (-0.5) 0.5⟩

/-- `impl ColorSpace for YCbCr`, `from_rgb`: the fixed column-major
BT.709 matrix applied to the RGB channels, with no clamping. -/
noncomputable def YCbCr.from_rgb (rgb : Rgb) : YCbCr :=
  ⟨0.2126 * rgb.r + 0.7152 * rgb.g + 0.0722 * rgb.b,
   -0.1146 * rgb.r + -0.3854 * rgb.g + 0.5 * rgb.b,
   0.5 * rgb.r + -0.4542 * rgb.g + -0.0458 * rgb.b⟩

/-! ### Helper lemmas about the modelled numerics collaborator -/

lemma f32eps_pos : 0 < f32eps := by norm_num [f32eps]

lemma f32eps_le : f32eps ≤ 1 / 1000000 := by norm_num [f32eps]

lemma is_approx_eq_symm {a b : ℝ} (h : is_approx_eq a b) : is_approx_eq b a := by
  unfold is_approx_eq at h ⊢
  rwa [abs_sub_comm]

lemma is_approx_eq_refl (a : ℝ) : is_approx_eq a a := by
  simp [is_approx_eq, f32eps_pos.le]

lemma clamp_le_hi (x lo hi : ℝ) : clamp x lo hi ≤ hi := min_le_right _ _

lemma lo_le_clamp {lo hi : ℝ} (x : ℝ) (h : lo ≤ hi) : lo ≤ clamp x lo hi :=
  le_min (le_max_right _ _) h

lemma clamp_mem {lo hi : ℝ} (x : ℝ) (h : lo ≤ hi) :
    lo ≤ clamp x lo hi ∧ clamp x lo hi ≤ hi :=
  ⟨lo_le_clamp x h, clamp_le_hi x lo hi⟩

lemma clamp_eq_self {x lo hi : ℝ} (h1 : lo ≤ x) (h2 : x ≤ hi) :
    clamp x lo hi = x := by
  unfold clamp
  rw [max_eq_left h1, min_eq_left h2]

lemma clamp_eq_hi {x lo hi : ℝ} (h1 : hi ≤ x) (h2 : lo ≤ hi) :
    clamp x lo hi = hi := by
  unfold clamp
  rw [max_eq_left (h2.trans h1), min_eq_right h1]

lemma clamp_eq_lo {x lo hi : ℝ} (h1 : x ≤ lo) (h2 : lo ≤ hi) :
    clamp x lo hi = lo := by
  unfold clamp
  rw [max_eq_right h1, min_eq_left h2]

lemma degrees_radians (x : ℝ) : degrees (radians x) = x := by
  unfold degrees radians
  field_simp

lemma trunc_eq_zero {x : ℝ} (h1 : -1 < x) (h2 : x < 1) : trunc x = 0 := by
  unfold trunc
  split_ifs with h
  · have : ⌊x⌋ = 0 := Int.floor_eq_zero_iff.mpr ⟨h, h2⟩
    simp [this]
  · have : ⌈x⌉ = 0 := Int.ceil_eq_zero_iff.mpr ⟨h1, by linarith⟩
    simp [this]

lemma fmodRust_eq_self {a b : ℝ} (hb : 0 < b) (h1 : -b < a) (h2 : a < b) :
    fmodRust a b = a := by
  unfold fmodRust
  have hlt : a / b < 1 := (div_lt_one hb).mpr h2
  have hgt : -1 < a / b := by
    rw [lt_div_iff hb]
    linarith
  rw [trunc_eq_zero hgt hlt]
  ring

lemma fmodRust_sub_base {a b : ℝ} (hb : 0 < b) (h1 : b ≤ a) (h2 : a < 2 * b) :
    fmodRust a b = a - b := by
  unfold fmodRust trunc
  have h0 : (0 : ℝ) ≤ a / b := div_nonneg (hb.le.trans h1) hb.le
  have hfl : ⌊a / b⌋ = 1 := by
    rw [Int.floor_eq_iff]
    constructor
    · rw [le_div_iff hb]
      push_cast
      linarith
    · rw [div_lt_iff hb]
      push_cast
      linarith
  rw [if_pos h0, hfl]
  push_cast
  ring

lemma Rgb.new_eq {x y z : ℝ} (hx0 : 0 ≤ x) (hx1 : x ≤ 1) (hy0 : 0 ≤ y)
    (hy1 : y ≤ 1) (hz0 : 0 ≤ z) (hz1 : z ≤ 1) :
    Rgb.new x y z = ⟨x, y, z⟩ := by
  unfold Rgb.new
  rw [clamp_eq_self hx0 hx1, clamp_eq_self hy0 hy1, clamp_eq_self hz0 hz1]

lemma two_pi_lt_seven : 2 * π < 7 := by
  have := Real.pi_lt_d2
  norm_num at this
  linarith

/-! ### Claim theorems -/

lemma Hsv.new_h (x s v : ℝ) :
    (Hsv.new x s v).h =
      if clamp x 0 (2 * π) = 2 * π then 0 else clamp x 0 (2 * π) := rfl

lemma Hsv.new_s (x s v : ℝ) : (Hsv.new x s v).s = clamp s 0 1 := rfl

lemma Hsv.new_v (x s v : ℝ) : (Hsv.new x s v).v = clamp v 0 1 := rfl

lemma Hsv.set_hue_h (c : Hsv) (x : ℝ) :
    (Hsv.set_hue c x).h =
      if clamp x 0 (2 * π) = 2 * π then 0 else clamp x 0 (2 * π) := rfl

lemma hue_store_eval (y : ℝ) :
    (if clamp y 0 (2 * π) = 2 * π then (0:ℝ) else clamp y 0 (2 * π)) =
      (if y < 2 * π then max y 0 else 0) := by
  rcases lt_or_le y (2 * π) with hy | hy
  · have hc : clamp y 0 (2 * π) = max y 0 :=
      min_eq_left (max_le hy.le Real.two_pi_pos.le)
    have hne : max y 0 ≠ 2 * π :=
      (max_lt hy Real.two_pi_pos).ne
    rw [hc, if_neg hne, if_pos hy]
  · have hc : clamp y 0 (2 * π) = 2 * π :=
      clamp_eq_hi hy Real.two_pi_pos.le
    rw [hc, if_pos rfl, if_neg (not_lt.mpr hy)]

/-- Claim C8: `Hsv::new(7.0, 2.0, 1.0)` yields hue exactly 0 (the hue
input 7.0 radians lies past 2π) and saturation exactly 1 (the input 2.0
clamped to [0, 1]). -/
theorem c8_new_seven_wraps :
    (Hsv.new 7 2 1).hue = 0 ∧ (Hsv.new 7 2 1).saturation = 1 := by
  have h7 : clamp (7 : ℝ) 0 (2 * π) = 2 * π :=
    clamp_eq_hi two_pi_lt_seven.le Real.two_pi_pos.le
  have h2 : clamp (2 : ℝ) 0 1 = 1 := clamp_eq_hi (by norm_num) (by norm_num)
  constructor
  · show (Hsv.new 7 2 1).h = 0
    rw [Hsv.new_h, h7, if_pos rfl]
  · show (Hsv.new 7 2 1).s = 1
    rw [Hsv.new_s, h2]

/-- Claim C2 counterexample: `Hsv::new(7.0, 1.0, 1.0)` stores hue 0, but
7 reduced modulo 2π is `7 - 2π`, which is nonzero — so the stored hue is
not the input reduced modulo 2π. -/
theorem c2_counterexample :
    (Hsv.new 7 1 1).hue = 0 ∧ (Hsv.new 7 1 1).hue ≠ 7 - 2 * π := by
  have h0 : (Hsv.new 7 1 1).hue = 0 := by
    show (Hsv.new 7 1 1).h = 0
    rw [Hsv.new_h, clamp_eq_hi two_pi_lt_seven.le Real.two_pi_pos.le,
      if_pos rfl]
  refine ⟨h0, ?_⟩
  rw [h0]
  intro h
  have h1 : (7 : ℝ) - 2 * π > 0 := by linarith [two_pi_lt_seven]
  rw [← h] at h1
  exact lt_irrefl 0 h1

/-- Claim C2, amended: `Hsv::new` and `Hsv::set_hue` clamp the hue into
[0, 2π] and then normalise the boundary value 2π to 0; inputs in [0, 2π)
are stored unchanged, while inputs at or beyond 2π (and inputs at or
below 0) are stored as 0 — the stored hue always lies in [0, 2π), but it
is not the input reduced modulo 2π. -/
theorem c2_hue_clamped (x s v : ℝ) (c : Hsv) :
    (Hsv.new x s v).hue = (if x < 2 * π then max x 0 else 0)
  ∧ (Hsv.set_hue c x).hue = (if x < 2 * π then max x 0 else 0)
  ∧ 0 ≤ (Hsv.new x s v).hue ∧ (Hsv.new x s v).hue < 2 * π := by
  have hnew : (Hsv.new x s v).hue = (if x < 2 * π then max x 0 else 0) := by
    show (Hsv.new x s v).h = _
    rw [Hsv.new_h, hue_store_eval]
  have hset : (Hsv.set_hue c x).hue = (if x < 2 * π then max x 0 else 0) := by
    show (Hsv.set_hue c x).h = _
    rw [Hsv.set_hue_h, hue_store_eval]
  refine ⟨hnew, hset, ?_, ?_⟩
  · rw [hnew]
    split_ifs
    · exact le_max_right _ _
    · exact le_refl 0
  · rw [hnew]
    split_ifs with h
    · exact max_lt h Real.two_pi_pos
    · exact Real.two_pi_pos

/-- Witness for the amended claim C2 at hue input 1 (in range). -/
theorem c2_witness :
    (Hsv.new 1 1 1).hue = (if (1:ℝ) < 2 * π then max 1 0 else 0)
  ∧ (Hsv.set_hue ⟨0, 1, 1⟩ 1).hue = (if (1:ℝ) < 2 * π then max 1 0 else 0)
  ∧ 0 ≤ (Hsv.new 1 1 1).hue ∧ (Hsv.new 1 1 1).hue < 2 * π :=
  c2_hue_clamped 1 1 1 ⟨0, 1, 1⟩

/-- Claim C7: for all float inputs, every constructor and setter clamps
each field into its declared range: `Rgb::new` and the Rgb channel
setters into [0, 1], `Srgb::new` into [0, 1], `YCbCr::new` into [0, 1]
for y and [-0.5, 0.5] for cb and cr, and the Hsv saturation and
brightness setters into [0, 1]. -/
theorem c7_constructors_clamp :
    (∀ x y z : ℝ, (0 ≤ (Rgb.new x y z).r ∧ (Rgb.new x y z).r ≤ 1)
      ∧ (0 ≤ (Rgb.new x y z).g ∧ (Rgb.new x y z).g ≤ 1)
      ∧ (0 ≤ (Rgb.new x y z).b ∧ (Rgb.new x y z).b ≤ 1))
  ∧ (∀ (c : Rgb) (x : ℝ), (0 ≤ (c.set_red x).r ∧ (c.set_red x).r ≤ 1)
      ∧ (0 ≤ (c.with_red x).r ∧ (c.with_red x).r ≤ 1))
  ∧ (∀ (c : Rgb) (x : ℝ), (0 ≤ (c.set_green x).g ∧ (c.set_green x).g ≤ 1)
      ∧ (0 ≤ (c.with_green x).g ∧ (c.with_green x).g ≤ 1))
  ∧ (∀ (c : Rgb) (x : ℝ), (0 ≤ (c.set_blue x).b ∧ (c.set_blue x).b ≤ 1)
      ∧ (0 ≤ (c.with_blue x).b ∧ (c.with_blue x).b ≤ 1))
  ∧ (∀ x y z : ℝ, (0 ≤ (Srgb.new x y z).r ∧ (Srgb.new x y z).r ≤ 1)
      ∧ (0 ≤ (Srgb.new x y z).g ∧ (Srgb.new x y z).g ≤ 1)
      ∧ (0 ≤ (Srgb.new x y z).b ∧ (Srgb.new x y z).b ≤ 1))
  ∧ (∀ x y z : ℝ, (0 ≤ (YCbCr.new x y z).y ∧ (YCbCr.new x y z).y ≤ 1)
      ∧ (-0.5 ≤ (YCbCr.new x y z).cb ∧ (YCbCr.new x y z).cb ≤ 0.5)
      ∧ (-0.5 ≤ (YCbCr.new x y z).cr ∧ (YCbCr.new x y z).cr ≤ 0.5))
  ∧ (∀ (c : Hsv) (x : ℝ),
      (0 ≤ (c.set_saturation x).s ∧ (c.set_saturation x).s ≤ 1)
      ∧ (0 ≤ (c.set_brightness x).v ∧ (c.set_brightness x).v ≤ 1)) := by
  have h01 : (0:ℝ) ≤ 1 := by norm_num
  have h55 : (-0.5:ℝ) ≤ 0.5 := by norm_num
  exact ⟨fun x y z => ⟨clamp_mem x h01, clamp_mem y h01, clamp_mem z h01⟩,
    fun c x => ⟨clamp_mem x h01, clamp_mem x h01⟩,
    fun c x => ⟨clamp_mem x h01, clamp_mem x h01⟩,
    fun c x => ⟨clamp_mem x h01, clamp_mem x h01⟩,
    fun x y z => ⟨clamp_mem x h01, clamp_mem y h01, clamp_mem z h01⟩,
    fun x y z => ⟨clamp_mem x h01, clamp_mem y h55, clamp_mem z h55⟩,
    fun c x => ⟨clamp_mem x h01, clamp_mem x h01⟩⟩

/-- Claim C6: for every in-range Rgb value, the YCbCr conversion's y
component equals the BT.709 luminance `lunimance`, and the unclamped cb
and cr components nevertheless lie within [-0.5, 0.5]. -/
theorem c6_ycbcr_luma_chroma (c : Rgb)
    (hr0 : 0 ≤ c.r) (hr1 : c.r ≤ 1) (hg0 : 0 ≤ c.g) (hg1 : c.g ≤ 1)
    (hb0 : 0 ≤ c.b) (hb1 : c.b ≤ 1) :
    (YCbCr.from_rgb c).y = c.lunimance
  ∧ (-0.5 ≤ (YCbCr.from_rgb c).cb ∧ (YCbCr.from_rgb c).cb ≤ 0.5)
  ∧ (-0.5 ≤ (YCbCr.from_rgb c).cr ∧ (YCbCr.from_rgb c).cr ≤ 0.5) := by
  unfold YCbCr.from_rgb Rgb.lunimance
  refine ⟨by ring, ⟨?_, ?_⟩, ⟨?_, ?_⟩⟩ <;> dsimp only <;> linarith

/-- Witness for claim C6 at the concrete color (1, 1/2, 0). -/
theorem c6_witness :
    (YCbCr.from_rgb ⟨1, 1/2, 0⟩).y = Rgb.lunimance ⟨1, 1/2, 0⟩
  ∧ (-0.5 ≤ (YCbCr.from_rgb ⟨1, 1/2, 0⟩).cb
      ∧ (YCbCr.from_rgb ⟨1, 1/2, 0⟩).cb ≤ 0.5)
  ∧ (-0.5 ≤ (YCbCr.from_rgb ⟨1, 1/2, 0⟩).cr
      ∧ (YCbCr.from_rgb ⟨1, 1/2, 0⟩).cr ≤ 0.5) :=
  c6_ycbcr_luma_chroma ⟨1, 1/2, 0⟩ (by norm_num) (by norm_num) (by norm_num)
    (by norm_num) (by norm_num) (by norm_num)

/-- Claim C4, code bug: with the random stream drawing u0 = 0, u1 = 1/4,
u2 = 3/4, the `Rand` implementation for `Rgb` returns green = 3/4 (the
blue draw), not u1 = 1/4 as claimed — the source builds
`Rgb { r: r, g: b, b: b }`, discarding the second draw. -/
theorem c4_rand_green_uses_blue_draw :
    Rgb.randFrom 0 (1/4) (3/4) = ⟨0, 3/4, 3/4⟩
  ∧ Rgb.randFrom 0 (1/4) (3/4) ≠ Rgb.randFromSpec 0 (1/4) (3/4) := by
  refine ⟨rfl, fun h => ?_⟩
  have hg := congrArg Rgb.g h
  simp only [Rgb.randFrom, Rgb.randFromSpec] at hg
  norm_num at hg

/-- Claim C3, code bug: for the valid Hsv color with brightness 0 and
n = 2, `tints` produces brightnesses [0, 1/2]; the last element has
brightness 1/2, not the full brightness 1 stated by the claim and by the
function's own documentation. -/
theorem c3_tints_last_not_full :
    ((Hsv.new 0 1 0).tints 2).map Hsv.brightness = [0, 1/2]
  ∧ ((1:ℝ)/2) ≠ 1 := by
  have hh : (Hsv.new 0 1 0).h = 0 := by
    rw [Hsv.new_h, clamp_eq_lo le_rfl Real.two_pi_pos.le,
      if_neg Real.two_pi_pos.ne]
  have hs : (Hsv.new 0 1 0).s = 1 := by
    rw [Hsv.new_s, clamp_eq_self (by norm_num) (by norm_num)]
  have hv : (Hsv.new 0 1 0).v = 0 := by
    rw [Hsv.new_v, clamp_eq_lo le_rfl (by norm_num)]
  have hnew : Hsv.new 0 1 0 = ⟨0, 1, 0⟩ := by
    have : Hsv.new 0 1 0 =
        ⟨(Hsv.new 0 1 0).h, (Hsv.new 0 1 0).s, (Hsv.new 0 1 0).v⟩ := rfl
    rw [this, hh, hs, hv]
  constructor
  · rw [hnew]
    unfold Hsv.tints Hsv.brightness Hsv.with_brightness Hsv.set_brightness
    norm_num [List.range_succ]
    constructor
    · exact clamp_eq_lo le_rfl (by norm_num)
    · exact clamp_eq_self (by norm_num) (by norm_num)
  · norm_num

/-- Claim C5: every element of `tones(n)` keeps the receiver's hue and
saturation and has its brightness field set, through the brightness
setter, to `clamp(s + ((1 - s) / n) * i, 0, 1)` where s is the
receiver's saturation. -/
theorem c5_tones_write_brightness (c : Hsv) (n i : ℕ) (hn : n ≠ 0)
    (hi : i < n) :
    (c.tones n).length = n
  ∧ (c.tones n)[i]? =
      some ⟨c.h, c.s,
        clamp (c.saturation + (1 - c.saturation) / (n:ℝ) * (i:ℝ)) 0 1⟩ := by
  unfold Hsv.tones
  rw [if_neg hn]
  constructor
  · simp
  · rw [List.getElem?_map, List.getElem?_range hi]
    rfl

/-- Witness for claim C5 with the color (0, 0, 0), n = 2, i = 1. -/
theorem c5_witness :
    ((⟨0, 0, 0⟩ : Hsv).tones 2).length = 2
  ∧ ((⟨0, 0, 0⟩ : Hsv).tones 2)[1]? =
      some ⟨Hsv.h ⟨0, 0, 0⟩, Hsv.s ⟨0, 0, 0⟩,
        clamp (Hsv.saturation ⟨0, 0, 0⟩ +
          (1 - Hsv.saturation ⟨0, 0, 0⟩) / ((2:ℕ):ℝ) * ((1:ℕ):ℝ)) 0 1⟩ :=
  c5_tones_write_brightness ⟨0, 0, 0⟩ 2 1 (by decide) (by decide)

/-- Claim C9: the division-by-near-zero cases are guarded: `rand_offset`
on a seed whose channel average is approximately 0 returns the flat gray
with all channels `clamp(offset, 0, 1)` for any random draw, and `hue`
and `saturation` return exactly 0 on approximately-achromatic colors. -/
theorem c9_near_zero_guards :
    (∀ (c : Rgb) (rnd o : ℝ), is_approx_eq ((c.r + c.g + c.b) / 3) 0 →
      c.rand_offset rnd o = ⟨clamp o 0 1, clamp o 0 1, clamp o 0 1⟩)
  ∧ (∀ c : Rgb,
      is_approx_eq (min c.r (min c.g c.b)) (max c.r (max c.g c.b)) →
      c.hue = 0 ∧ c.saturation = 0) := by
  constructor
  · intro c rnd o hval
    unfold Rgb.rand_offset
    simp only []
    rw [if_pos hval]
  · intro c hmn
    constructor
    · unfold Rgb.hue
      simp only []
      rw [if_pos hmn]
    · unfold Rgb.saturation
      simp only []
      rw [if_pos (is_approx_eq_symm hmn)]

/-- Witness for claim C9: the black seed with offset 2, and the gray
color (1/2, 1/2, 1/2). -/
theorem c9_witness :
    Rgb.rand_offset ⟨0, 0, 0⟩ 0 2 = ⟨clamp 2 0 1, clamp 2 0 1, clamp 2 0 1⟩
  ∧ (Rgb.hue ⟨1/2, 1/2, 1/2⟩ = 0 ∧ Rgb.saturation ⟨1/2, 1/2, 1/2⟩ = 0) := by
  constructor
  · exact c9_near_zero_guards.1 ⟨0, 0, 0⟩ 0 2
      (by simp [is_approx_eq, f32eps])
  · exact c9_near_zero_guards.2 ⟨1/2, 1/2, 1/2⟩
      (by simp [is_approx_eq, f32eps])

lemma sector_eq_floor (c : Hsv) (h0 : 0 ≤ c.h) (h2 : c.h < 2 * π) :
    c.sector = ((⌊degrees c.h / 60⌋ : ℤ) : ℝ)
  ∧ 0 ≤ ⌊degrees c.h / 60⌋ ∧ ⌊degrees c.h / 60⌋ < 6 := by
  have hπ := Real.pi_pos
  have hv0 : 0 ≤ degrees c.h / 60 := by
    unfold degrees
    positivity
  have hv6 : degrees c.h / 60 < 6 := by
    unfold degrees
    rw [div_lt_iff (by norm_num : (0:ℝ) < 60), div_lt_iff hπ]
    nlinarith
  have hk0 : 0 ≤ ⌊degrees c.h / 60⌋ := Int.floor_nonneg.mpr hv0
  have hk6 : ⌊degrees c.h / 60⌋ < 6 := by
    have : ⌊degrees c.h / 60⌋ < (6:ℤ) := Int.floor_lt.mpr (by exact_mod_cast hv6)
    exact this
  refine ⟨?_, hk0, hk6⟩
  unfold Hsv.sector floorR
  have hc0 : (0:ℝ) ≤ (⌊degrees c.h / 60⌋ : ℝ) := by exact_mod_cast hk0
  have hc6 : ((⌊degrees c.h / 60⌋ : ℤ) : ℝ) < 6 := by exact_mod_cast hk6
  exact fmodRust_eq_self (by norm_num) (by linarith) hc6

/-- Claim C10: for every Hsv value satisfying the type invariant whose
saturation is not approximately zero, the sector index
`floor(degrees(h) / 60) % 6` computed inside `to_rgb` is one of
0, 1, 2, 3, 4, 5, and the conversion takes a real sector arm — the
unreachable fallback is never executed. -/
theorem c10_sector_total (c : Hsv) (h0 : 0 ≤ c.h) (h2 : c.h < 2 * π)
    (hs : ¬ is_approx_eq c.s 0) :
    (c.sector = 0 ∨ c.sector = 1 ∨ c.sector = 2 ∨ c.sector = 3 ∨
      c.sector = 4 ∨ c.sector = 5)
  ∧ (c.to_rgb?).isSome = true := by
  obtain ⟨hsec, hk0, hk6⟩ := sector_eq_floor c h0 h2
  set k := ⌊degrees c.h / 60⌋ with hk
  have hcases : k = 0 ∨ k = 1 ∨ k = 2 ∨ k = 3 ∨ k = 4 ∨ k = 5 := by omega
  have hsix : c.sector = 0 ∨ c.sector = 1 ∨ c.sector = 2 ∨ c.sector = 3 ∨
      c.sector = 4 ∨ c.sector = 5 := by
    rcases hcases with h | h | h | h | h | h <;>
      rw [hsec, h] <;> norm_num
  refine ⟨hsix, ?_⟩
  have hsec' : fmodRust (floorR (degrees c.h / 60)) 6 = c.sector := rfl
  unfold Hsv.to_rgb?
  rw [if_neg hs]
  simp only [hsec']
  rcases hsix with h | h | h | h | h | h <;> rw [h] <;> norm_num

/-- Witness for claim C10 at the fully saturated red (hue 0). -/
theorem c10_witness :
    (Hsv.sector ⟨0, 1, 1⟩ = 0 ∨ Hsv.sector ⟨0, 1, 1⟩ = 1 ∨
      Hsv.sector ⟨0, 1, 1⟩ = 2 ∨ Hsv.sector ⟨0, 1, 1⟩ = 3 ∨
      Hsv.sector ⟨0, 1, 1⟩ = 4 ∨ Hsv.sector ⟨0, 1, 1⟩ = 5)
  ∧ (Hsv.to_rgb? ⟨0, 1, 1⟩).isSome = true :=
  c10_sector_total ⟨0, 1, 1⟩ le_rfl Real.two_pi_pos
    (by simp [is_approx_eq, f32eps]; norm_num)

lemma hi_eval {x : ℝ} {k : ℤ} (hk0 : 0 ≤ k) (hk6 : k < 6)
    (h1 : (k:ℝ) ≤ x) (h2 : x < (k:ℝ) + 1) :
    fmodRust (floorR x) 6 = (k:ℝ) := by
  have hfl : ⌊x⌋ = k := by
    rw [Int.floor_eq_iff]
    exact ⟨h1, h2⟩
  unfold floorR
  rw [hfl]
  have c0 : (0:ℝ) ≤ (k:ℝ) := by exact_mod_cast hk0
  have c6 : (k:ℝ) < 6 := by exact_mod_cast hk6
  exact fmodRust_eq_self (by norm_num) (by linarith) c6

lemma to_rgb_eval0 (c : Hsv) (hs : ¬ is_approx_eq c.s 0)
    (h1 : 0 ≤ degrees c.h / 60) (h2 : degrees c.h / 60 < 1) :
    c.to_rgb? = some (Rgb.new c.v
      (c.v * (1 - (1 - (degrees c.h / 60 - 0)) * c.s))
      (c.v * (1 - c.s))) := by
  have hmod : fmodRust (floorR (degrees c.h / 60)) 6 = (0:ℝ) := by
    have := hi_eval (x := degrees c.h / 60) (k := 0) (by norm_num) (by norm_num)
      (by push_cast; linarith) (by push_cast; linarith)
    simpa using this
  unfold Hsv.to_rgb?
  rw [if_neg hs]
  simp only [hmod]
  simp

lemma to_rgb_eval1 (c : Hsv) (hs : ¬ is_approx_eq c.s 0)
    (h1 : 1 ≤ degrees c.h / 60) (h2 : degrees c.h / 60 < 2) :
    c.to_rgb? = some (Rgb.new
      (c.v * (1 - (degrees c.h / 60 - 1) * c.s))
      c.v
      (c.v * (1 - c.s))) := by
  have hmod : fmodRust (floorR (degrees c.h / 60)) 6 = (1:ℝ) := by
    have := hi_eval (x := degrees c.h / 60) (k := 1) (by norm_num) (by norm_num)
      (by push_cast; linarith) (by push_cast; linarith)
    simpa using this
  unfold Hsv.to_rgb?
  rw [if_neg hs]
  simp only [hmod]
  simp

lemma to_rgb_eval2 (c : Hsv) (hs : ¬ is_approx_eq c.s 0)
    (h1 : 2 ≤ degrees c.h / 60) (h2 : degrees c.h / 60 < 3) :
    c.to_rgb? = some (Rgb.new
      (c.v * (1 - c.s))
      c.v
      (c.v * (1 - (1 - (degrees c.h / 60 - 2)) * c.s))) := by
  have hmod : fmodRust (floorR (degrees c.h / 60)) 6 = (2:ℝ) := by
    have := hi_eval (x := degrees c.h / 60) (k := 2) (by norm_num) (by norm_num)
      (by push_cast; linarith) (by push_cast; linarith)
    simpa using this
  unfold Hsv.to_rgb?
  rw [if_neg hs]
  simp only [hmod]
  simp

lemma to_rgb_eval3 (c : Hsv) (hs : ¬ is_approx_eq c.s 0)
    (h1 : 3 ≤ degrees c.h / 60) (h2 : degrees c.h / 60 < 4) :
    c.to_rgb? = some (Rgb.new
      (c.v * (1 - c.s))
      (c.v * (1 - (degrees c.h / 60 - 3) * c.s))
      c.v) := by
  have hmod : fmodRust (floorR (degrees c.h / 60)) 6 = (3:ℝ) := by
    have := hi_eval (x := degrees c.h / 60) (k := 3) (by norm_num) (by norm_num)
      (by push_cast; linarith) (by push_cast; linarith)
    simpa using this
  unfold Hsv.to_rgb?
  rw [if_neg hs]
  simp only [hmod]
  simp

lemma to_rgb_eval4 (c : Hsv) (hs : ¬ is_approx_eq c.s 0)
    (h1 : 4 ≤ degrees c.h / 60) (h2 : degrees c.h / 60 < 5) :
    c.to_rgb? = some (Rgb.new
      (c.v * (1 - (1 - (degrees c.h / 60 - 4)) * c.s))
      (c.v * (1 - c.s))
      c.v) := by
  have hmod : fmodRust (floorR (degrees c.h / 60)) 6 = (4:ℝ) := by
    have := hi_eval (x := degrees c.h / 60) (k := 4) (by norm_num) (by norm_num)
      (by push_cast; linarith) (by push_cast; linarith)
    simpa using this
  unfold Hsv.to_rgb?
  rw [if_neg hs]
  simp only [hmod]
  simp

lemma to_rgb_eval5 (c : Hsv) (hs : ¬ is_approx_eq c.s 0)
    (h1 : 5 ≤ degrees c.h / 60) (h2 : degrees c.h / 60 < 6) :
    c.to_rgb? = some (Rgb.new
      c.v
      (c.v * (1 - c.s))
      (c.v * (1 - (degrees c.h / 60 - 5) * c.s))) := by
  have hmod : fmodRust (floorR (degrees c.h / 60)) 6 = (5:ℝ) := by
    have := hi_eval (x := degrees c.h / 60) (k := 5) (by norm_num) (by norm_num)
      (by push_cast; linarith) (by push_cast; linarith)
    simpa using this
  unfold Hsv.to_rgb?
  rw [if_neg hs]
  simp only [hmod]
  simp

lemma Rgb.hue_achromatic (c : Rgb)
    (h : is_approx_eq (min c.r (min c.g c.b)) (max c.r (max c.g c.b))) :
    c.hue = 0 := by
  unfold Rgb.hue
  simp only []
  rw [if_pos h]

lemma Rgb.saturation_achromatic (c : Rgb)
    (h : is_approx_eq (max c.r (max c.g c.b)) (min c.r (min c.g c.b))) :
    c.saturation = 0 := by
  unfold Rgb.saturation
  simp only []
  rw [if_pos h]

lemma Rgb.saturation_chromatic (c : Rgb)
    (h : ¬ is_approx_eq (max c.r (max c.g c.b)) (min c.r (min c.g c.b))) :
    c.saturation =
      1 - (min c.r (min c.g c.b)) / (max c.r (max c.g c.b)) := by
  unfold Rgb.saturation
  simp only []
  rw [if_neg h]

lemma Rgb.hue_chromatic (c : Rgb)
    (h : ¬ is_approx_eq (min c.r (min c.g c.b)) (max c.r (max c.g c.b))) :
    c.hue = radians (fmodRust
      ((if max c.r (max c.g c.b) = c.r
        then fmodRust ((c.g - c.b) /
          (max c.r (max c.g c.b) - min c.r (min c.g c.b))) 6
        else if max c.r (max c.g c.b) = c.g
        then (c.b - c.r) /
          (max c.r (max c.g c.b) - min c.r (min c.g c.b)) + 2
        else (c.r - c.g) /
          (max c.r (max c.g c.b) - min c.r (min c.g c.b)) + 4)
        * 60 + 360) 360) := by
  unfold Rgb.hue
  simp only []
  rw [if_neg h]

lemma hsv_p_eq {mxv : ℝ} (mnv : ℝ) (h : mxv ≠ 0) :
    mxv * (1 - (1 - mnv / mxv)) = mnv := by
  field_simp

lemma hsv_q_eq {mxv : ℝ} (mnv f : ℝ) (h : mxv ≠ 0) :
    mxv * (1 - f * (1 - mnv / mxv)) = mxv - f * (mxv - mnv) := by
  field_simp

lemma hsv_t_eq {mxv : ℝ} (mnv f : ℝ) (h : mxv ≠ 0) :
    mxv * (1 - (1 - f) * (1 - mnv / mxv)) = mnv + f * (mxv - mnv) := by
  field_simp
  ring

/-- Claim C1: converting any in-range Rgb value to Hsv and back yields a
color whose every channel is within 1e-6 of the original (for a
chromatic input the round trip is exact in real arithmetic; for a
nearly-achromatic input the gray shortcut loses at most the channel
spread, which is at most the approximate-equality tolerance 2⁻²³ ≤ 1e-6),
and an exactly achromatic input (r = g = b) has intermediate saturation
exactly 0. -/
theorem c1_hsv_roundtrip (c : Rgb)
    (hr0 : 0 ≤ c.r) (hr1 : c.r ≤ 1) (hg0 : 0 ≤ c.g) (hg1 : c.g ≤ 1)
    (hb0 : 0 ≤ c.b) (hb1 : c.b ≤ 1) :
    (∃ c' : Rgb, (Hsv.from_rgb c).to_rgb? = some c'
      ∧ |c'.r - c.r| ≤ 1/1000000 ∧ |c'.g - c.g| ≤ 1/1000000
      ∧ |c'.b - c.b| ≤ 1/1000000)
  ∧ (c.r = c.g → c.g = c.b → (Hsv.from_rgb c).saturation = 0) := by
  have hrmx : c.r ≤ max c.r (max c.g c.b) := le_max_left _ _
  have hgmx : c.g ≤ max c.r (max c.g c.b) :=
    le_trans (le_max_left _ _) (le_max_right _ _)
  have hbmx : c.b ≤ max c.r (max c.g c.b) :=
    le_trans (le_max_right _ _) (le_max_right _ _)
  have hmnr : min c.r (min c.g c.b) ≤ c.r := min_le_left _ _
  have hmng : min c.r (min c.g c.b) ≤ c.g :=
    le_trans (min_le_right _ _) (min_le_left _ _)
  have hmnb : min c.r (min c.g c.b) ≤ c.b :=
    le_trans (min_le_right _ _) (min_le_right _ _)
  have hmx1 : max c.r (max c.g c.b) ≤ 1 := max_le hr1 (max_le hg1 hb1)
  have hmn0 : 0 ≤ min c.r (min c.g c.b) := le_min hr0 (le_min hg0 hb0)
  have hmnmx : min c.r (min c.g c.b) ≤ max c.r (max c.g c.b) :=
    hmnr.trans hrmx
  constructor
  · by_cases hA : is_approx_eq (min c.r (min c.g c.b)) (max c.r (max c.g c.b))
    · -- nearly achromatic input: the gray shortcut
      have hd : max c.r (max c.g c.b) - min c.r (min c.g c.b) ≤ f32eps := by
        have h' : |min c.r (min c.g c.b) - max c.r (max c.g c.b)| ≤ f32eps := hA
        rwa [abs_sub_comm, abs_of_nonneg (sub_nonneg.mpr hmnmx)] at h'
      have hsat : c.saturation = 0 :=
        Rgb.saturation_achromatic c (is_approx_eq_symm hA)
      have hhue : c.hue = 0 := Rgb.hue_achromatic c hA
      have hsv_eq : Hsv.from_rgb c = ⟨0, 0, c.brightness⟩ := by
        show (⟨c.hue, c.saturation, c.brightness⟩ : Hsv) = _
        rw [hhue, hsat]
      have hout : (Hsv.from_rgb c).to_rgb? =
          some (Rgb.new (max c.r (max c.g c.b)) (max c.r (max c.g c.b))
            (max c.r (max c.g c.b))) := by
        rw [hsv_eq]
        unfold Hsv.to_rgb?
        simp only []
        rw [if_pos (is_approx_eq_refl 0)]
        rfl
      have hb0' : (0:ℝ) ≤ max c.r (max c.g c.b) := le_trans hr0 hrmx
      have hnewg : Rgb.new (max c.r (max c.g c.b)) (max c.r (max c.g c.b))
          (max c.r (max c.g c.b)) =
          ⟨max c.r (max c.g c.b), max c.r (max c.g c.b),
            max c.r (max c.g c.b)⟩ :=
        Rgb.new_eq hb0' hmx1 hb0' hmx1 hb0' hmx1
      refine ⟨⟨max c.r (max c.g c.b), max c.r (max c.g c.b),
        max c.r (max c.g c.b)⟩, by rw [hout, hnewg], ?_, ?_, ?_⟩
      · show |max c.r (max c.g c.b) - c.r| ≤ 1/1000000
        rw [abs_of_nonneg (sub_nonneg.mpr hrmx)]
        linarith [f32eps_le]
      · show |max c.r (max c.g c.b) - c.g| ≤ 1/1000000
        rw [abs_of_nonneg (sub_nonneg.mpr hgmx)]
        linarith [f32eps_le]
      · show |max c.r (max c.g c.b) - c.b| ≤ 1/1000000
        rw [abs_of_nonneg (sub_nonneg.mpr hbmx)]
        linarith [f32eps_le]
    · -- chromatic input: the round trip is exact
      have hchpos : f32eps < max c.r (max c.g c.b) - min c.r (min c.g c.b) := by
        have h' : f32eps < |min c.r (min c.g c.b) - max c.r (max c.g c.b)| :=
          not_le.mp (fun hx => hA hx)
        rwa [abs_sub_comm, abs_of_nonneg (sub_nonneg.mpr hmnmx)] at h'
      have hmxpos : 0 < max c.r (max c.g c.b) := by
        have := f32eps_pos
        linarith
      have hsat := Rgb.saturation_chromatic c (fun hx => hA (is_approx_eq_symm hx))
      have hhue := Rgb.hue_chromatic c hA
      set mx := max c.r (max c.g c.b) with hmxdef
      set mn := min c.r (min c.g c.b) with hmndef
      have hch0 : (0:ℝ) < mx - mn := lt_trans f32eps_pos hchpos
      have hchne : mx - mn ≠ 0 := ne_of_gt hch0
      have hmxne : mx ≠ 0 := ne_of_gt hmxpos
      have hsnot : ¬ is_approx_eq (Hsv.from_rgb c).s 0 := by
        show ¬ is_approx_eq c.saturation 0
        rw [hsat]
        intro hx
        have hx' : |1 - mn / mx - 0| ≤ f32eps := hx
        have e1 : 1 - mn / mx - 0 = (mx - mn) / mx := by field_simp
        rw [e1, abs_of_nonneg (by positivity)] at hx'
        rw [div_le_iff hmxpos] at hx'
        nlinarith [f32eps_pos, hmx1, hchpos]
      have hveq : (Hsv.from_rgb c).v = mx := rfl
      have hseq : (Hsv.from_rgb c).s = 1 - mn / mx := hsat
      suffices hkey : (Hsv.from_rgb c).to_rgb? = some ⟨c.r, c.g, c.b⟩ by
        refine ⟨⟨c.r, c.g, c.b⟩, hkey, ?_, ?_, ?_⟩
        · show |c.r - c.r| ≤ 1/1000000
          rw [sub_self, abs_zero]
          norm_num
        · show |c.g - c.g| ≤ 1/1000000
          rw [sub_self, abs_zero]
          norm_num
        · show |c.b - c.b| ≤ 1/1000000
          rw [sub_self, abs_zero]
          norm_num
      by_cases hR : mx = c.r
      · -- the red channel is maximal
        rw [if_pos hR] at hhue
        have hd0l : -1 ≤ (c.g - c.b) / (mx - mn) := by
          rw [le_div_iff hch0]
          linarith
        have hd0r : (c.g - c.b) / (mx - mn) ≤ 1 := by
          rw [div_le_one hch0]
          linarith
        have hdf : fmodRust ((c.g - c.b) / (mx - mn)) 6 =
            (c.g - c.b) / (mx - mn) :=
          fmodRust_eq_self (by norm_num) (by linarith) (by linarith)
        rw [hdf] at hhue
        set d0 := (c.g - c.b) / (mx - mn) with hd0def
        rcases le_or_lt 0 d0 with hd0 | hd0
        · -- green at least blue
          have hgb : c.b ≤ c.g := by
            have h' : (0:ℝ) ≤ (c.g - c.b) / (mx - mn) := hd0
            rw [le_div_iff hch0] at h'
            linarith
          have hbr' : c.b ≤ c.r := hR ▸ hbmx
          have emn : mn = c.b := by
            rw [hmndef, min_eq_right hgb, min_eq_right hbr']
          have hfm : fmodRust (d0 * 60 + 360) 360 = d0 * 60 + 360 - 360 :=
            fmodRust_sub_base (by norm_num) (by linarith) (by linarith)
          have hhv : degrees (Hsv.from_rgb c).h / 60 = d0 := by
            show degrees c.hue / 60 = d0
            rw [hhue, degrees_radians, hfm]
            ring
          rcases lt_or_eq_of_le hd0r with hd1 | hd1
          · -- sector 0
            rw [to_rgb_eval0 (Hsv.from_rgb c) hsnot
              (by rw [hhv]; linarith) (by rw [hhv]; linarith)]
            congr 1
            rw [hveq, hseq, hhv, sub_zero,
              hsv_t_eq mn d0 hmxne, hsv_p_eq mn hmxne]
            have hdc : d0 * (mx - mn) = c.g - c.b := by
              rw [hd0def]
              exact div_mul_cancel₀ _ hchne
            rw [hdc]
            rw [show mn + (c.g - c.b) = c.g from by rw [emn]; ring]
            rw [hR, emn]
            exact Rgb.new_eq hr0 hr1 hg0 hg1 hb0 hb1
          · -- green equals the maximum: sector 1 with fraction 0
            have hgeq : c.g = mx := by
              have h' := hd1
              rw [hd0def] at h'
              field_simp [hchne] at h'
              have h2' : mn = c.b := emn
              linarith
            rw [to_rgb_eval1 (Hsv.from_rgb c) hsnot
              (by rw [hhv, hd1]) (by rw [hhv, hd1]; norm_num)]
            congr 1
            rw [hveq, hseq, hhv, hd1]
            rw [show (1:ℝ) - 1 = 0 from by norm_num]
            rw [hsv_q_eq mn 0 hmxne, hsv_p_eq mn hmxne]
            rw [show mx - 0 * (mx - mn) = c.r from by rw [← hR]; ring]
            rw [show (mx:ℝ) = c.g from hgeq.symm]
            rw [emn]
            exact Rgb.new_eq hr0 hr1 hg0 hg1 hb0 hb1
        · -- blue exceeds green: sector 5
          have hgb' : c.g < c.b := by
            have h' := hd0
            rw [hd0def, div_lt_iff hch0] at h'
            linarith
          have hgr : c.g ≤ c.r := hR ▸ hgmx
          have emn : mn = c.g := by
            rw [hmndef, min_eq_left hgb'.le, min_eq_right hgr]
          have hfm : fmodRust (d0 * 60 + 360) 360 = d0 * 60 + 360 :=
            fmodRust_eq_self (by norm_num) (by linarith) (by linarith)
          have hhv : degrees (Hsv.from_rgb c).h / 60 = d0 + 6 := by
            show degrees c.hue / 60 = d0 + 6
            rw [hhue, degrees_radians, hfm]
            ring
          rw [to_rgb_eval5 (Hsv.from_rgb c) hsnot
            (by rw [hhv]; linarith) (by rw [hhv]; linarith)]
          congr 1
          rw [hveq, hseq, hhv]
          rw [hsv_p_eq mn hmxne, hsv_q_eq mn (d0 + 6 - 5) hmxne]
          have hdc : (d0 + 6 - 5) * (mx - mn) = c.g - c.b + (mx - mn) := by
            have h' : d0 * (mx - mn) = c.g - c.b := by
              rw [hd0def]
              exact div_mul_cancel₀ _ hchne
            calc (d0 + 6 - 5) * (mx - mn)
                = d0 * (mx - mn) + (mx - mn) := by ring
              _ = c.g - c.b + (mx - mn) := by rw [h']
          rw [hdc]
          rw [show mx - (c.g - c.b + (mx - mn)) = c.b from by rw [emn]; ring]
          rw [hR, emn]
          exact Rgb.new_eq hr0 hr1 hg0 hg1 hb0 hb1
      · by_cases hG : mx = c.g
        · -- the green channel is maximal
          rw [if_neg hR, if_pos hG] at hhue
          have hrlt : c.r < mx := lt_of_le_of_ne hrmx (fun he => hR he.symm)
          have hd0l : -1 < (c.b - c.r) / (mx - mn) := by
            rw [lt_div_iff hch0]
            linarith
          have hd0r : (c.b - c.r) / (mx - mn) ≤ 1 := by
            rw [div_le_one hch0]
            linarith
          set d0 := (c.b - c.r) / (mx - mn) with hd0def
          have hfm : fmodRust ((d0 + 2) * 60 + 360) 360 =
              (d0 + 2) * 60 + 360 - 360 :=
            fmodRust_sub_base (by norm_num) (by linarith) (by linarith)
          have hhv : degrees (Hsv.from_rgb c).h / 60 = d0 + 2 := by
            show degrees c.hue / 60 = d0 + 2
            rw [hhue, degrees_radians, hfm]
            ring
          rcases le_or_lt 0 d0 with hd0 | hd0
          · -- blue at least red
            have hrb : c.r ≤ c.b := by
              have h' : (0:ℝ) ≤ (c.b - c.r) / (mx - mn) := hd0
              rw [le_div_iff hch0] at h'
              linarith
            have hrg : c.r ≤ c.g := hG ▸ hrmx
            have emn : mn = c.r := by
              rw [hmndef, min_eq_left (le_min hrg hrb)]
            rcases lt_or_eq_of_le hd0r with hd1 | hd1
            · -- sector 2
              rw [to_rgb_eval2 (Hsv.from_rgb c) hsnot
                (by rw [hhv]; linarith) (by rw [hhv]; linarith)]
              congr 1
              rw [hveq, hseq, hhv]
              rw [show d0 + 2 - 2 = d0 from by ring]
              rw [hsv_p_eq mn hmxne, hsv_t_eq mn d0 hmxne]
              have hdc : d0 * (mx - mn) = c.b - c.r := by
                rw [hd0def]
                exact div_mul_cancel₀ _ hchne
              rw [hdc]
              rw [show mn + (c.b - c.r) = c.b from by rw [emn]; ring]
              rw [hG, emn]
              exact Rgb.new_eq hr0 hr1 hg0 hg1 hb0 hb1
            · -- blue equals the maximum: sector 3 with fraction 0
              have hbeq : c.b = mx := by
                have h' := hd1
                rw [hd0def] at h'
                field_simp [hchne] at h'
                have h2' : mn = c.r := emn
                linarith
              rw [to_rgb_eval3 (Hsv.from_rgb c) hsnot
                (by rw [hhv, hd1]; norm_num) (by rw [hhv, hd1]; norm_num)]
              congr 1
              rw [hveq, hseq, hhv, hd1]
              rw [show (1:ℝ) + 2 - 3 = 0 from by norm_num]
              rw [hsv_p_eq mn hmxne, hsv_q_eq mn 0 hmxne]
              rw [show mx - 0 * (mx - mn) = c.g from by rw [← hG]; ring]
              rw [show (mx:ℝ) = c.b from hbeq.symm]
              rw [emn]
              exact Rgb.new_eq hr0 hr1 hg0 hg1 hb0 hb1
          · -- red exceeds blue: sector 1
            have hbr' : c.b < c.r := by
              have h' := hd0
              rw [hd0def, div_lt_iff hch0] at h'
              linarith
            have hbg : c.b ≤ c.g := hG ▸ hbmx
            have emn : mn = c.b := by
              rw [hmndef, min_eq_right hbg, min_eq_right hbr'.le]
            rw [to_rgb_eval1 (Hsv.from_rgb c) hsnot
              (by rw [hhv]; linarith) (by rw [hhv]; linarith)]
            congr 1
            rw [hveq, hseq, hhv]
            rw [hsv_q_eq mn (d0 + 2 - 1) hmxne, hsv_p_eq mn hmxne]
            have hdc : (d0 + 2 - 1) * (mx - mn) = c.b - c.r + (mx - mn) := by
              have h' : d0 * (mx - mn) = c.b - c.r := by
                rw [hd0def]
                exact div_mul_cancel₀ _ hchne
              calc (d0 + 2 - 1) * (mx - mn)
                  = d0 * (mx - mn) + (mx - mn) := by ring
                _ = c.b - c.r + (mx - mn) := by rw [h']
            rw [hdc]
            rw [show mx - (c.b - c.r + (mx - mn)) = c.r from by rw [emn]; ring]
            rw [hG, emn]
            exact Rgb.new_eq hr0 hr1 hg0 hg1 hb0 hb1
        · -- the blue channel is maximal
          have hmxb : mx = c.b := by
            rcases max_choice c.r (max c.g c.b) with h' | h'
            · exact absurd (hmxdef.trans h') hR
            · rcases max_choice c.g c.b with h2' | h2'
              · exact absurd (hmxdef.trans (h'.trans h2')) hG
              · exact hmxdef.trans (h'.trans h2')
          rw [if_neg hR, if_neg hG] at hhue
          have hrlt : c.r < mx := lt_of_le_of_ne hrmx (fun he => hR he.symm)
          have hglt : c.g < mx := lt_of_le_of_ne hgmx (fun he => hG he.symm)
          have hd0l : -1 < (c.r - c.g) / (mx - mn) := by
            rw [lt_div_iff hch0]
            linarith
          have hd0r : (c.r - c.g) / (mx - mn) < 1 := by
            rw [div_lt_one hch0]
            linarith
          set d0 := (c.r - c.g) / (mx - mn) with hd0def
          have hfm : fmodRust ((d0 + 4) * 60 + 360) 360 =
              (d0 + 4) * 60 + 360 - 360 :=
            fmodRust_sub_base (by norm_num) (by linarith) (by linarith)
          have hhv : degrees (Hsv.from_rgb c).h / 60 = d0 + 4 := by
            show degrees c.hue / 60 = d0 + 4
            rw [hhue, degrees_radians, hfm]
            ring
          rcases le_or_lt 0 d0 with hd0 | hd0
          · -- red at least green: sector 4
            have hgr : c.g ≤ c.r := by
              have h' : (0:ℝ) ≤ (c.r - c.g) / (mx - mn) := hd0
              rw [le_div_iff hch0] at h'
              linarith
            have hgb : c.g ≤ c.b := hmxb ▸ hgmx
            have emn : mn = c.g := by
              rw [hmndef, min_eq_left hgb, min_eq_right hgr]
            rw [to_rgb_eval4 (Hsv.from_rgb c) hsnot
              (by rw [hhv]; linarith) (by rw [hhv]; linarith)]
            congr 1
            rw [hveq, hseq, hhv]
            rw [show d0 + 4 - 4 = d0 from by ring]
            rw [hsv_t_eq mn d0 hmxne, hsv_p_eq mn hmxne]
            have hdc : d0 * (mx - mn) = c.r - c.g := by
              rw [hd0def]
              exact div_mul_cancel₀ _ hchne
            rw [hdc]
            rw [show mn + (c.r - c.g) = c.r from by rw [emn]; ring]
            rw [emn, hmxb]
            exact Rgb.new_eq hr0 hr1 hg0 hg1 hb0 hb1
          · -- green exceeds red: sector 3
            have hrg : c.r < c.g := by
              have h' := hd0
              rw [hd0def, div_lt_iff hch0] at h'
              linarith
            have hrb : c.r ≤ c.b := hmxb ▸ hrmx
            have emn : mn = c.r := by
              rw [hmndef, min_eq_left (le_min hrg.le hrb)]
            rw [to_rgb_eval3 (Hsv.from_rgb c) hsnot
              (by rw [hhv]; linarith) (by rw [hhv]; linarith)]
            congr 1
            rw [hveq, hseq, hhv]
            rw [hsv_p_eq mn hmxne, hsv_q_eq mn (d0 + 4 - 3) hmxne]
            have hdc : (d0 + 4 - 3) * (mx - mn) = c.r - c.g + (mx - mn) := by
              have h' : d0 * (mx - mn) = c.r - c.g := by
                rw [hd0def]
                exact div_mul_cancel₀ _ hchne
              calc (d0 + 4 - 3) * (mx - mn)
                  = d0 * (mx - mn) + (mx - mn) := by ring
                _ = c.r - c.g + (mx - mn) := by rw [h']
            rw [hdc]
            rw [show mx - (c.r - c.g + (mx - mn)) = c.g from by rw [emn]; ring]
            rw [emn, hmxb]
            exact Rgb.new_eq hr0 hr1 hg0 hg1 hb0 hb1
  · -- exactly achromatic inputs have saturation exactly 0
    intro h1 h2
    show Rgb.saturation c = 0
    apply Rgb.saturation_achromatic
    have hmm : max c.r (max c.g c.b) = min c.r (min c.g c.b) := by
      rw [h1, h2]
      simp
    show |max c.r (max c.g c.b) - min c.r (min c.g c.b)| ≤ f32eps
    rw [hmm, sub_self, abs_zero]
    exact f32eps_pos.le

/-- Witness for claim C1 at the concrete color (1/2, 1/4, 0). -/
theorem c1_witness :
    ((∃ c' : Rgb, (Hsv.from_rgb ⟨1/2, 1/4, 0⟩).to_rgb? = some c'
      ∧ |c'.r - Rgb.r ⟨1/2, 1/4, 0⟩| ≤ 1/1000000
      ∧ |c'.g - Rgb.g ⟨1/2, 1/4, 0⟩| ≤ 1/1000000
      ∧ |c'.b - Rgb.b ⟨1/2, 1/4, 0⟩| ≤ 1/1000000)
  ∧ (Rgb.r ⟨1/2, 1/4, 0⟩ = Rgb.g ⟨1/2, 1/4, 0⟩ →
      Rgb.g ⟨1/2, 1/4, 0⟩ = Rgb.b ⟨1/2, 1/4, 0⟩ →
      (Hsv.from_rgb ⟨1/2, 1/4, 0⟩).saturation = 0)) :=
  c1_hsv_roundtrip ⟨1/2, 1/4, 0⟩ (by norm_num) (by norm_num) (by norm_num)
    (by norm_num) (by norm_num) (by norm_num)

end GlmColor
